import Mathlib

/-!
# Verification of the `tui_form_widget` form state machine

Shallow embedding of the repository's core: `src/form.rs` (the `Form` state
machine: selection, buffers, submission-triggered validation, key input) and
the per-field visual-class resolution of `src/widget.rs` together with the
legacy variant in `src/lib.rs`.

Conventions:
* Rust `usize` indices become `Nat`; `(i + 1).rem_euclid(n)` becomes
  `(i + 1) % n`, guarded by an explicit `none` when `n = 0` because
  `rem_euclid` panics on a zero divisor (likewise `self.fields.len() - 1`
  underflows when the list is empty, and `self.fields[i]` panics when
  `i` is out of range) — panicking paths are modelled as `Option.none`.
* The stored validation closure `Box<dyn Fn(&str) -> bool>` becomes a
  function field `validation_fn : String → Bool`.
* `ratatui` `Style` values are opaque to the core; they are modelled by a
  small concrete structure rich enough to distinguish the four defaults.
-/

namespace TuiForm

/-- Model of the `crossterm::event::KeyCode` variants the crate can receive
(a representative subset: the four the code matches on, plus several that
always fall into the wildcard arm). -/
inductive KeyCode where
  | Backspace
  | Enter
  | Esc
  | Tab
  | Delete
  | Left
  | Right
  | Up
  | Down
  | F (n : Nat)
  | Char (c : Char)
  | Null
deriving DecidableEq, Repr

/-- Model of a `ratatui` color as used by the crate's default styles. -/
inductive Color where
  | red
  | cyan
deriving DecidableEq, Repr

/-- Opaque visual style; only carried around by the core, never inspected. -/
structure Style where
  fg : Option Color := none
  bold : Bool := false
deriving DecidableEq, Repr

/-- `FieldStatus` from `src/form.rs`. -/
inductive FieldStatus where
  | Valid
  | Invalid
deriving DecidableEq, Repr

/-- `Field` from `src/form.rs`: a field's data plus its validity marker. -/
structure Field where
  name : String
  val : String
  status : FieldStatus
deriving DecidableEq, Repr

/-- `Field::valid` constructor. -/
def Field.valid (name val : String) : Field :=
  ⟨name, val, .Valid⟩

/-- `Field::invalid` constructor. -/
def Field.invalid (name val : String) : Field :=
  ⟨name, val, .Invalid⟩

/-- `Field::is_valid`. -/
def Field.is_valid (f : Field) : Bool :=
  match f.status with
  | .Valid => true
  | .Invalid => false

/-- `FormSelection` from `src/form.rs`. -/
inductive FormSelection where
  | NoSelection
  | Hovered (i : Nat)
  | Active (i : Nat)
deriving DecidableEq, Repr

/-- `FieldBuffer` from `src/form.rs`: a field's name and mutable text buffer. -/
structure FieldBuffer where
  name : String
  val : String
deriving DecidableEq, Repr

/-- The `Form` aggregate from `src/form.rs`. -/
structure Form where
  selected : FormSelection
  fields : List FieldBuffer
  submitted : Bool
  validation_fn : String → Bool
  default_field_style : Style
  invalid_field_style : Style
  hovered_field_style : Style
  active_field_style : Style

/-- `impl Default for Form`. -/
def Form.default : Form where
  selected := .NoSelection
  fields := []
  submitted := false
  validation_fn := fun f => !f.isEmpty
  default_field_style := {}
  invalid_field_style := { fg := some .red, bold := true }
  hovered_field_style := { fg := some .cyan }
  active_field_style := { fg := some .cyan, bold := true }

/-- `impl From<Vec<&str>> for Form`: empty buffers, other fields defaulted. -/
def Form.fromNames (names : List String) : Form :=
  { Form.default with
      fields := names.map fun d_name => { name := d_name, val := "" } }

/-- `Form::new`: field titles plus an explicit validator. -/
def Form.new (names : List String) (validation_fn : String → Bool) : Form :=
  { Form.default with
      fields := names.map fun title => { name := title, val := "" }
      validation_fn := validation_fn }

/-- `Form::status`: recomputed from `submitted` and the predicate on every
call, never cached. -/
def Form.status (f : Form) : List Field :=
  if f.submitted then
    f.fields.map fun fb =>
      if f.validation_fn fb.val then Field.valid fb.name fb.val
      else Field.invalid fb.name fb.val
  else
    f.fields.map fun fb => Field.valid fb.name fb.val

/-- `Form::submit`: sets the flag, then returns `status()` of the updated
form. The returned pair is (updated form, returned field statuses). -/
def Form.submit (f : Form) : Form × List Field :=
  let f' : Form := { f with submitted := true }
  (f', f'.status)

/-- `Form::next_field`. `rem_euclid` by `self.fields.len()` panics when the
field list is empty; that path is `none`. -/
def Form.next_field (f : Form) : Option Form :=
  match f.selected with
  | .NoSelection => some { f with selected := .Hovered 0 }
  | .Hovered i =>
      if f.fields.length = 0 then none
      else some { f with selected := .Hovered ((i + 1) % f.fields.length) }
  | .Active i =>
      if f.fields.length = 0 then none
      else some { f with selected := .Active ((i + 1) % f.fields.length) }

/-- `Form::prev_field`. `self.fields.len() - 1` underflows (panics) when the
field list is empty and the index is 0; that path is `none`. -/
def Form.prev_field (f : Form) : Option Form :=
  match f.selected with
  | .NoSelection => some { f with selected := .Hovered 0 }
  | .Hovered i =>
      if i = 0 then
        if f.fields.length = 0 then none
        else some { f with selected := .Hovered (f.fields.length - 1) }
      else some { f with selected := .Hovered (i - 1) }
  | .Active i =>
      if i = 0 then
        if f.fields.length = 0 then none
        else some { f with selected := .Active (f.fields.length - 1) }
      else some { f with selected := .Active (i - 1) }

/-- Replace the element at index `i` (out-of-range leaves the list alone;
callers that would panic in Rust guard the bound themselves). -/
def listModify {α : Type} (l : List α) (i : Nat) (g : α → α) : List α :=
  match l, i with
  | [], _ => []
  | a :: as, 0 => g a :: as
  | a :: as, n + 1 => a :: listModify as n g

/-- `Form::pop_field`: `self.fields[field].val.pop()`. Indexing out of range
panics (`none`); popping the last char of an empty buffer is a no-op. -/
def Form.pop_field (f : Form) (field : Nat) : Option Form :=
  if field < f.fields.length then
    some { f with fields := listModify f.fields field (fun fb => { fb with val := fb.val.dropRight 1 }) }
  else none

/-- `Form::append_field`: `self.fields[field].val.push(ch)`. Indexing out of
range panics (`none`). -/
def Form.append_field (f : Form) (ch : Char) (field : Nat) : Option Form :=
  if field < f.fields.length then
    some { f with fields := listModify f.fields field (fun fb => { fb with val := fb.val.push ch }) }
  else none

/-- `Form::input`: the two input grammars, keyed on whether the selection is
`Active`. -/
def Form.input (f : Form) (key : KeyCode) : Option Form :=
  match f.selected with
  | .Active i =>
      match key with
      | .Enter => f.next_field
      | .Esc => some { f with selected := .Hovered i }
      | .Backspace => f.pop_field i
      | .Char ch => f.append_field ch i
      | _ => some f
  | _ =>
      match key with
      | .Esc => some { f with selected := .NoSelection }
      | .Char ch =>
          if ch = 'j' then f.next_field
          else if ch = 'k' then f.prev_field
          else some f
      | .Enter =>
          match f.selected with
          | .Hovered i => some { f with selected := .Active i }
          | _ => some { f with selected := .Active 0 }
      | _ => some f

/-- `FieldRenderType` (declared identically in `src/widget.rs` and
`src/lib.rs`). -/
inductive FieldRenderType where
  | Normal
  | Invalid
  | Hovered
  | Active
deriving DecidableEq, Repr

/-- The visual-class match expression of `Renderer::render_fields` in
`src/widget.rs` (lines 58–63). -/
def Renderer.render_type_of (hovered active is_invalid : Bool) : FieldRenderType :=
  match hovered, active, is_invalid with
  | _, true, _ => .Active
  | true, false, _ => .Hovered
  | false, false, true => .Invalid
  | false, false, false => .Normal

/-- The visual-class match expression of the legacy `Form::render_fields` in
`src/lib.rs` (lines 207–212). -/
def Legacy.render_type_of (hovered active is_invalid : Bool) : FieldRenderType :=
  match hovered, active, is_invalid with
  | _, true, _ => .Active
  | true, false, _ => .Hovered
  | false, false, true => .Invalid
  | false, false, false => .Normal

/-- Per-field visual classes computed by `Renderer::render_fields` in
`src/widget.rs`: it iterates `status()` with `enumerate()`, deriving
`is_invalid`, `hovered` and `active` for each index. -/
def Renderer.render_types (form : Form) : List FieldRenderType :=
  form.status.enum.map fun p =>
    let i := p.1
    let field := p.2
    let is_invalid := !field.is_valid && form.submitted
    let hovered :=
      match form.selected with
      | .Hovered f => f == i
      | _ => false
    let active :=
      match form.selected with
      | .Active f => f == i
      | _ => false
    Renderer.render_type_of hovered active is_invalid

/-- Selection index in bounds: carried index (if any) below the field count. -/
def selIndexOk (s : FormSelection) (n : Nat) : Bool :=
  match s with
  | .NoSelection => true
  | .Hovered i => decide (i < n)
  | .Active i => decide (i < n)

/-- A finite sequence of navigation calls: `true` = `next_field`,
`false` = `prev_field`. -/
def navSeq (f : Form) : List Bool → Option Form
  | [] => some f
  | op :: ops => (if op then f.next_field else f.prev_field).bind fun f' => navSeq f' ops

/-- A finite sequence of `input` calls. -/
def inputSeq (f : Form) : List KeyCode → Option Form
  | [] => some f
  | k :: ks => (f.input k).bind fun f' => inputSeq f' ks

/-- The key codes each input grammar reacts to: in `Active` mode the commit
key, escape, backspace and any printable character; otherwise escape, the
`j`/`k` navigation characters and the commit key. -/
def recognizedKey (s : FormSelection) (k : KeyCode) : Bool :=
  match s with
  | .Active _ =>
      match k with
      | .Enter => true
      | .Esc => true
      | .Backspace => true
      | .Char _ => true
      | _ => false
  | _ =>
      match k with
      | .Esc => true
      | .Enter => true
      | .Char c => c == 'j' || c == 'k'
      | _ => false

/-- The three-field example form of spec scenario A: empty buffers, default
(non-empty) validator. -/
def formA : Form := Form.fromNames ["Account", "Username", "Password"]


/-- Scenario-A form with the submitted flag raised. -/
def formSub : Form := { formA with submitted := true }

/-- `formSub` after appending `'x'` to field 0's buffer. -/
def formSubEdited : Form :=
  { formSub with
      fields := listModify formSub.fields 0 (fun fb => { fb with val := fb.val.push 'x' }) }

/-- Scenario-A form submitted with its first field active. -/
def formSubActive : Form := { formA with submitted := true, selected := .Active 0 }

/-- Scenario-A form after one press of the down-navigation key. -/
def formAj : Form := { formA with selected := .Hovered 0 }

/-! ## Helper lemmas -/

theorem listModify_length {α : Type} (l : List α) (i : Nat) (g : α → α) :
    (listModify l i g).length = l.length := by
  induction l generalizing i with
  | nil => rfl
  | cons a as ih =>
      cases i with
      | zero => rfl
      | succ n => simpa [listModify] using ih n

theorem listModify_getElem? {α : Type} (l : List α) (i : Nat) (g : α → α) (j : Nat) :
    (listModify l i g)[j]? = if j = i then (l[i]?).map g else l[j]? := by
  induction l generalizing i j with
  | nil => simp [listModify]
  | cons a as ih =>
      cases i with
      | zero =>
          cases j with
          | zero => simp [listModify]
          | succ m => simp [listModify]
      | succ n =>
          cases j with
          | zero => simp [listModify]
          | succ m => simpa [listModify] using ih n m

theorem listModify_map {α β : Type} (l : List α) (i : Nat) (g : α → α)
    (nm : α → β) (hg : ∀ a, nm (g a) = nm a) :
    (listModify l i g).map nm = l.map nm := by
  induction l generalizing i with
  | nil => rfl
  | cons a as ih =>
      cases i with
      | zero => simp [listModify, hg]
      | succ n => simp [listModify, ih n]

/-- Whatever `next_field` succeeds with differs from its input at most in
the selection. -/
theorem next_field_eq {f f' : Form} (h : f.next_field = some f') :
    f' = { f with selected := f'.selected } := by
  cases hs : f.selected with
  | NoSelection =>
      simp [Form.next_field, hs] at h
      subst h; rfl
  | Hovered i =>
      by_cases hn : f.fields.length = 0
      · simp [Form.next_field, hs, hn] at h
      · simp [Form.next_field, hs, hn] at h
        subst h; rfl
  | Active i =>
      by_cases hn : f.fields.length = 0
      · simp [Form.next_field, hs, hn] at h
      · simp [Form.next_field, hs, hn] at h
        subst h; rfl

/-- Whatever `prev_field` succeeds with differs from its input at most in
the selection. -/
theorem prev_field_eq {f f' : Form} (h : f.prev_field = some f') :
    f' = { f with selected := f'.selected } := by
  cases hs : f.selected with
  | NoSelection =>
      simp [Form.prev_field, hs] at h
      subst h; rfl
  | Hovered i =>
      by_cases hi : i = 0
      · by_cases hn : f.fields.length = 0
        · simp [Form.prev_field, hs, hi, hn] at h
        · simp [Form.prev_field, hs, hi, hn] at h
          subst h; rfl
      · simp [Form.prev_field, hs, hi] at h
        subst h; rfl
  | Active i =>
      by_cases hi : i = 0
      · by_cases hn : f.fields.length = 0
        · simp [Form.prev_field, hs, hi, hn] at h
        · simp [Form.prev_field, hs, hi, hn] at h
          subst h; rfl
      · simp [Form.prev_field, hs, hi] at h
        subst h; rfl

/-- On a non-empty field list `next_field` always succeeds, keeps the field
list, and lands on an in-bounds selection index. -/
theorem next_field_total (f : Form) (hn : 1 ≤ f.fields.length) :
    ∃ f', f.next_field = some f' ∧ f'.fields = f.fields ∧
      selIndexOk f'.selected f.fields.length = true := by
  have hn0 : f.fields.length ≠ 0 := Nat.pos_iff_ne_zero.mp hn
  cases hs : f.selected with
  | NoSelection =>
      exact ⟨{ f with selected := .Hovered 0 }, by simp [Form.next_field, hs], rfl,
        by simp only [selIndexOk, decide_eq_true_eq]; omega⟩
  | Hovered i =>
      refine ⟨{ f with selected := .Hovered ((i + 1) % f.fields.length) },
        by simp [Form.next_field, hs, hn0], rfl, ?_⟩
      simp [selIndexOk, Nat.mod_lt _ hn]
  | Active i =>
      refine ⟨{ f with selected := .Active ((i + 1) % f.fields.length) },
        by simp [Form.next_field, hs, hn0], rfl, ?_⟩
      simp [selIndexOk, Nat.mod_lt _ hn]

/-- On a non-empty field list with an in-bounds selection, `prev_field`
always succeeds, keeps the field list, and stays in bounds. -/
theorem prev_field_total (f : Form) (hn : 1 ≤ f.fields.length)
    (hok : selIndexOk f.selected f.fields.length = true) :
    ∃ f', f.prev_field = some f' ∧ f'.fields = f.fields ∧
      selIndexOk f'.selected f.fields.length = true := by
  have hn0 : f.fields.length ≠ 0 := Nat.pos_iff_ne_zero.mp hn
  cases hs : f.selected with
  | NoSelection =>
      exact ⟨{ f with selected := .Hovered 0 }, by simp [Form.prev_field, hs], rfl,
        by simp only [selIndexOk, decide_eq_true_eq]; omega⟩
  | Hovered i =>
      rw [hs] at hok
      simp only [selIndexOk, decide_eq_true_eq] at hok
      by_cases hi : i = 0
      · refine ⟨{ f with selected := .Hovered (f.fields.length - 1) },
          by simp [Form.prev_field, hs, hi, hn0], rfl, ?_⟩
        simp [selIndexOk, Nat.sub_lt hn Nat.one_pos]
      · refine ⟨{ f with selected := .Hovered (i - 1) },
          by simp [Form.prev_field, hs, hi], rfl, ?_⟩
        simp only [selIndexOk, decide_eq_true_eq]
        omega
  | Active i =>
      rw [hs] at hok
      simp only [selIndexOk, decide_eq_true_eq] at hok
      by_cases hi : i = 0
      · refine ⟨{ f with selected := .Active (f.fields.length - 1) },
          by simp [Form.prev_field, hs, hi, hn0], rfl, ?_⟩
        simp [selIndexOk, Nat.sub_lt hn Nat.one_pos]
      · refine ⟨{ f with selected := .Active (i - 1) },
          by simp [Form.prev_field, hs, hi], rfl, ?_⟩
        simp only [selIndexOk, decide_eq_true_eq]
        omega

/-- Any sequence of navigation calls on a non-empty, in-bounds form
succeeds and preserves the field list and the bounds invariant. -/
theorem navSeq_total (ops : List Bool) (f : Form) (hn : 1 ≤ f.fields.length)
    (hok : selIndexOk f.selected f.fields.length = true) :
    ∃ f', navSeq f ops = some f' ∧ f'.fields = f.fields ∧
      selIndexOk f'.selected f.fields.length = true := by
  induction ops generalizing f with
  | nil => exact ⟨f, rfl, rfl, hok⟩
  | cons op ops ih =>
      cases op with
      | true =>
          obtain ⟨f₁, h₁, hfields, hok₁⟩ := next_field_total f hn
          obtain ⟨f₂, h₂, hfields₂, hok₂⟩ :=
            ih f₁ (by rw [hfields]; exact hn) (by rw [hfields]; exact hok₁)
          exact ⟨f₂, by simp [navSeq, h₁, h₂], by rw [hfields₂, hfields],
            by rw [hfields] at hok₂; exact hok₂⟩
      | false =>
          obtain ⟨f₁, h₁, hfields, hok₁⟩ := prev_field_total f hn hok
          obtain ⟨f₂, h₂, hfields₂, hok₂⟩ :=
            ih f₁ (by rw [hfields]; exact hn) (by rw [hfields]; exact hok₁)
          exact ⟨f₂, by simp [navSeq, h₁, h₂], by rw [hfields₂, hfields],
            by rw [hfields] at hok₂; exact hok₂⟩

/-! ## Claim theorems -/

/-- C3: on every form with at least one field whose selection is
`NoSelection` or carries an in-bounds index, every finite sequence of
`next_field`/`prev_field` calls succeeds and leaves the selection index in
`[0, n)`; in particular `next_field` from index `n - 1` wraps to `0` and
`prev_field` from index `0` wraps to `n - 1` (in both the hovered and the
active variant). -/
theorem C3_navigation_bounds (f : Form) (ops : List Bool)
    (hn : 1 ≤ f.fields.length)
    (hok : selIndexOk f.selected f.fields.length = true) :
    (∃ f', navSeq f ops = some f' ∧ f'.fields = f.fields ∧
      selIndexOk f'.selected f.fields.length = true) ∧
    (f.selected = .Hovered (f.fields.length - 1) →
      f.next_field = some { f with selected := .Hovered 0 }) ∧
    (f.selected = .Active (f.fields.length - 1) →
      f.next_field = some { f with selected := .Active 0 }) ∧
    (f.selected = .Hovered 0 →
      f.prev_field = some { f with selected := .Hovered (f.fields.length - 1) }) ∧
    (f.selected = .Active 0 →
      f.prev_field = some { f with selected := .Active (f.fields.length - 1) }) := by
  have hn0 : f.fields.length ≠ 0 := by omega
  have hwrap : (f.fields.length - 1 + 1) % f.fields.length = 0 := by
    have : f.fields.length - 1 + 1 = f.fields.length := by omega
    rw [this, Nat.mod_self]
  refine ⟨navSeq_total ops f hn hok, ?_, ?_, ?_, ?_⟩
  · intro hs
    simp [Form.next_field, hs, hn0, hwrap]
  · intro hs
    simp [Form.next_field, hs, hn0, hwrap]
  · intro hs
    simp [Form.prev_field, hs, hn0]
  · intro hs
    simp [Form.prev_field, hs, hn0]

/-- Witness for C3 on a concrete three-field form hovering its last field. -/
theorem C3_navigation_bounds_witness :
    1 ≤ ({ formA with selected := .Hovered 2 } : Form).fields.length ∧
    selIndexOk ({ formA with selected := .Hovered 2 } : Form).selected
      ({ formA with selected := .Hovered 2 } : Form).fields.length = true ∧
    ((∃ f', navSeq { formA with selected := .Hovered 2 } [true, false, true] = some f' ∧
        f'.fields = ({ formA with selected := .Hovered 2 } : Form).fields ∧
        selIndexOk f'.selected
          ({ formA with selected := .Hovered 2 } : Form).fields.length = true) ∧
      (({ formA with selected := .Hovered 2 } : Form).selected =
          .Hovered (({ formA with selected := .Hovered 2 } : Form).fields.length - 1) →
        ({ formA with selected := .Hovered 2 } : Form).next_field =
          some { { formA with selected := .Hovered 2 } with selected := .Hovered 0 }) ∧
      (({ formA with selected := .Hovered 2 } : Form).selected =
          .Active (({ formA with selected := .Hovered 2 } : Form).fields.length - 1) →
        ({ formA with selected := .Hovered 2 } : Form).next_field =
          some { { formA with selected := .Hovered 2 } with selected := .Active 0 }) ∧
      (({ formA with selected := .Hovered 2 } : Form).selected = .Hovered 0 →
        ({ formA with selected := .Hovered 2 } : Form).prev_field =
          some { { formA with selected := .Hovered 2 } with
            selected := .Hovered (({ formA with selected := .Hovered 2 } : Form).fields.length - 1) }) ∧
      (({ formA with selected := .Hovered 2 } : Form).selected = .Active 0 →
        ({ formA with selected := .Hovered 2 } : Form).prev_field =
          some { { formA with selected := .Hovered 2 } with
            selected := .Active (({ formA with selected := .Hovered 2 } : Form).fields.length - 1) })) :=
  ⟨by decide, by decide,
    C3_navigation_bounds { formA with selected := .Hovered 2 } [true, false, true]
      (by decide) (by decide)⟩

/-- C5: `submit()` sets the submitted flag, returns the per-field status of
the submitted form, and changes nothing else: selection, field buffers
(names and values), validation predicate, and all four styles. -/
theorem C5_submit_effect (f : Form) :
    (f.submit).1.submitted = true ∧
    (f.submit).2 = (f.submit).1.status ∧
    (f.submit).1.selected = f.selected ∧
    (f.submit).1.fields = f.fields ∧
    (f.submit).1.validation_fn = f.validation_fn ∧
    (f.submit).1.default_field_style = f.default_field_style ∧
    (f.submit).1.invalid_field_style = f.invalid_field_style ∧
    (f.submit).1.hovered_field_style = f.hovered_field_style ∧
    (f.submit).1.active_field_style = f.active_field_style :=
  ⟨rfl, rfl, rfl, rfl, rfl, rfl, rfl, rfl, rfl⟩

/-- C6 counterexample: on the scenario-A form, two presses of the
down-navigation key from `NoSelection` yield `Hovered 1`, not `Hovered 2`
as claimed (the first press only enters navigation mode at field 0). -/
theorem C6_counterexample :
    (inputSeq formA [.Char 'j', .Char 'j']).map Form.selected ≠
      some (FormSelection.Hovered 2) := by
  decide

/-- C6 (amended): on the scenario-A form, two down-navigation presses yield
`Hovered 1`; enter then yields `Active 1`; typing `x`, `y`, `z` makes field
1's buffer `"xyz"` (fields 0 and 2 stay empty); `Esc` then yields
`Hovered 1`. -/
theorem C6_amended_scenario :
    (inputSeq formA [.Char 'j', .Char 'j']).map Form.selected =
      some (.Hovered 1) ∧
    (inputSeq formA [.Char 'j', .Char 'j', .Enter]).map Form.selected =
      some (.Active 1) ∧
    (inputSeq formA [.Char 'j', .Char 'j', .Enter, .Char 'x', .Char 'y',
        .Char 'z']).map (fun f => f.fields.map FieldBuffer.val) =
      some ["", "xyz", ""] ∧
    (inputSeq formA [.Char 'j', .Char 'j', .Enter, .Char 'x', .Char 'y',
        .Char 'z', .Esc]).map Form.selected = some (.Hovered 1) :=
  ⟨rfl, rfl, rfl, rfl⟩

/-- C7: when the selection is not `Active`, the commit key (`Enter`) makes
the selection `Active i` from `Hovered i` and `Active 0` from
`NoSelection`. -/
theorem C7_commit_enters_active (f : Form) (i : Nat) :
    (f.selected = .Hovered i →
      f.input .Enter = some { f with selected := .Active i }) ∧
    (f.selected = .NoSelection →
      f.input .Enter = some { f with selected := .Active 0 }) := by
  constructor
  · intro h
    simp [Form.input, h]
  · intro h
    simp [Form.input, h]

/-- Witness for C7 at a hovered and at an unselected concrete form. -/
theorem C7_commit_enters_active_witness :
    ({ formA with selected := .Hovered 1 } : Form).selected = .Hovered 1 ∧
    ({ formA with selected := .Hovered 1 } : Form).input .Enter =
      some { { formA with selected := .Hovered 1 } with selected := .Active 1 } :=
  ⟨rfl, (C7_commit_enters_active { formA with selected := .Hovered 1 } 1).1 rfl⟩

/-- C10: the per-field visual-class match of the legacy widget
(`src/lib.rs`) and of the current renderer (`src/widget.rs`) compute the
same `FieldRenderType` on every combination of the three booleans. -/
theorem C10_render_type_agree :
    ∀ hovered active invalidity : Bool,
      Renderer.render_type_of hovered active invalidity =
        Legacy.render_type_of hovered active invalidity := by
  decide

/-- C1: on a submitted form the validity reported for field `i` by
`status()` and by `submit()` is exactly the stored predicate applied to
field `i`'s current buffer value, and after an edit (here: appending a
character) the next query reflects the new value — nothing is cached. -/
theorem C1_validity_no_cache (f : Form) (hsub : f.submitted = true) (i : Nat)
    (fb : FieldBuffer) (h : f.fields[i]? = some fb) (ch : Char) (f' : Form)
    (hedit : f.append_field ch i = some f') :
    (f.status[i]?).map Field.is_valid = some (f.validation_fn fb.val) ∧
    ((f.submit).2[i]?).map Field.is_valid = some (f.validation_fn fb.val) ∧
    (f'.status[i]?).map Field.is_valid = some (f.validation_fn (fb.val.push ch)) := by
  have hi : i < f.fields.length := by
    rcases Nat.lt_or_ge i f.fields.length with h' | h'
    · exact h'
    · rw [List.getElem?_eq_none h'] at h
      cases h
  have hedit' : f' = { f with
      fields := listModify f.fields i (fun fb => { fb with val := fb.val.push ch }) } := by
    simp [Form.append_field, hi] at hedit
    exact hedit.symm
  refine ⟨?_, ?_, ?_⟩
  · cases hv : f.validation_fn fb.val <;>
      simp [Form.status, hsub, List.getElem?_map, h, hv, Field.valid, Field.invalid,
        Field.is_valid]
  · cases hv : f.validation_fn fb.val <;>
      simp [Form.submit, Form.status, List.getElem?_map, h, hv, Field.valid,
        Field.invalid, Field.is_valid]
  · subst hedit'
    cases hv : f.validation_fn (fb.val.push ch) <;>
      simp [Form.status, hsub, List.getElem?_map, listModify_getElem?, h, hv,
        Field.valid, Field.invalid, Field.is_valid]

/-- Witness for C1 on the submitted scenario-A form: field 0's empty buffer
is reported exactly as the default predicate says, before and after an
edit. -/
theorem C1_validity_no_cache_witness :
    formSub.submitted = true ∧
    formSub.fields[0]? = some ⟨"Account", ""⟩ ∧
    formSub.append_field 'x' 0 = some formSubEdited ∧
    ((formSub.status[0]?).map Field.is_valid =
        some (formSub.validation_fn "") ∧
      ((formSub.submit).2[0]?).map Field.is_valid =
        some (formSub.validation_fn "") ∧
      (formSubEdited.status[0]?).map Field.is_valid =
        some (formSub.validation_fn ("".push 'x'))) :=
  ⟨rfl, rfl, rfl,
    C1_validity_no_cache formSub rfl 0 ⟨"Account", ""⟩ rfl 'x' formSubEdited rfl⟩

/-- C2: on a form that was never submitted, every field `status()` returns
is reported valid, whatever the buffers hold and whatever the predicate
would say about them. -/
theorem C2_presubmit_all_valid (f : Form) (hsub : f.submitted = false)
    (i : Nat) (fld : Field) (h : f.status[i]? = some fld) :
    fld.is_valid = true := by
  simp [Form.status, hsub, List.getElem?_map] at h
  obtain ⟨fb, hfb, hfld⟩ := h
  rw [← hfld]
  rfl

/-- Witness for C2: the unsubmitted scenario-A form reports its empty first
field valid even though the default predicate rejects empty strings. -/
theorem C2_presubmit_all_valid_witness :
    formA.submitted = false ∧
    formA.status[0]? = some (Field.valid "Account" "") ∧
    formA.validation_fn "" = false ∧
    (Field.valid "Account" "").is_valid = true :=
  ⟨rfl, rfl, rfl,
    C2_presubmit_all_valid formA rfl 0 (Field.valid "Account" "") rfl⟩

/-- C8: any key code outside the recognized grammar of the current mode is
a defined no-op: `input` returns the form unchanged (selection, buffers,
submitted flag and styles included) rather than failing. -/
theorem C8_unrecognized_noop (f : Form) (key : KeyCode)
    (h : recognizedKey f.selected key = false) : f.input key = some f := by
  cases hs : f.selected <;> rw [hs] at h <;> cases key <;>
    simp_all [recognizedKey, Form.input, hs]

/-- Witness for C8: a `Tab` key on the unselected scenario-A form is
ignored. -/
theorem C8_unrecognized_noop_witness :
    recognizedKey formA.selected .Tab = false ∧ formA.input .Tab = some formA :=
  ⟨rfl, C8_unrecognized_noop formA .Tab rfl⟩

/-- C4: the visual class `Renderer::render_fields` computes for field `i`
follows the strict priority Active > Hovered > Invalid > Normal: `Active`
when the selection is `Active i`; else `Hovered` when it is `Hovered i`;
else `Invalid` when the form is submitted and the predicate rejects the
buffer; else `Normal`. A field both active and invalid therefore renders
`Active`. -/
theorem C4_render_priority (f : Form) (i : Nat) (fb : FieldBuffer)
    (h : f.fields[i]? = some fb) :
    (Renderer.render_types f)[i]? = some (
      if f.selected = .Active i then .Active
      else if f.selected = .Hovered i then .Hovered
      else if f.submitted && !(f.validation_fn fb.val) then .Invalid
      else .Normal) := by
  have hstat : f.status[i]? = some (if f.submitted then
      (if f.validation_fn fb.val then Field.valid fb.name fb.val
        else Field.invalid fb.name fb.val)
      else Field.valid fb.name fb.val) := by
    by_cases hsub : f.submitted <;>
      simp [Form.status, hsub, List.getElem?_map, h]
  rw [Renderer.render_types, List.getElem?_map, List.getElem?_enum, hstat]
  cases hsel : f.selected with
  | NoSelection =>
      by_cases hsub : f.submitted <;> by_cases hv : f.validation_fn fb.val <;>
        simp [hsub, hv, hsel, Renderer.render_type_of, Field.is_valid,
          Field.valid, Field.invalid]
  | Hovered j =>
      by_cases hji : j = i
      · subst hji
        by_cases hsub : f.submitted <;> by_cases hv : f.validation_fn fb.val <;>
          simp [hsub, hv, hsel, Renderer.render_type_of, Field.is_valid,
            Field.valid, Field.invalid]
      · have hbeq : (j == i) = false := by simpa using hji
        by_cases hsub : f.submitted <;> by_cases hv : f.validation_fn fb.val <;>
          simp [hsub, hv, hsel, hji, hbeq, Ne.symm hji, Renderer.render_type_of,
            Field.is_valid, Field.valid, Field.invalid]
  | Active j =>
      by_cases hji : j = i
      · subst hji
        by_cases hsub : f.submitted <;> by_cases hv : f.validation_fn fb.val <;>
          simp [hsub, hv, hsel, Renderer.render_type_of, Field.is_valid,
            Field.valid, Field.invalid]
      · have hbeq : (j == i) = false := by simpa using hji
        by_cases hsub : f.submitted <;> by_cases hv : f.validation_fn fb.val <;>
          simp [hsub, hv, hsel, hji, hbeq, Ne.symm hji, Renderer.render_type_of,
            Field.is_valid, Field.valid, Field.invalid]

/-- Witness for C4: a submitted form whose active field 0 is empty (hence
invalid under the default predicate) still renders as `Active`. -/
theorem C4_render_priority_witness :
    formSubActive.fields[0]? = some ⟨"Account", ""⟩ ∧
    formSubActive.submitted = true ∧
    formSubActive.validation_fn "" = false ∧
    (Renderer.render_types formSubActive)[0]? = some (
      if formSubActive.selected = .Active 0 then .Active
      else if formSubActive.selected = .Hovered 0 then .Hovered
      else if formSubActive.submitted && !(formSubActive.validation_fn "") then .Invalid
      else .Normal) :=
  ⟨rfl, rfl, rfl, C4_render_priority formSubActive 0 ⟨"Account", ""⟩ rfl⟩

/-- Every successful `input` either changed at most the selection, or the
selection was `Active i` and at most the buffer at `i` was rewritten by a
name-preserving edit. -/
theorem input_eq_cases {f f' : Form} {key : KeyCode} (h : f.input key = some f') :
    f' = { f with selected := f'.selected } ∨
    ∃ i g, f.selected = .Active i ∧ (∀ a : FieldBuffer, (g a).name = a.name) ∧
      f' = { f with fields := listModify f.fields i g } := by
  cases hs : f.selected with
  | NoSelection =>
      cases key with
      | Esc =>
          simp [Form.input, hs] at h
          subst h; exact Or.inl rfl
      | Enter =>
          simp [Form.input, hs] at h
          subst h; exact Or.inl rfl
      | Char ch =>
          by_cases hj : ch = 'j'
          · simp [Form.input, hs, hj] at h
            exact Or.inl (next_field_eq h)
          · by_cases hk : ch = 'k'
            · simp [Form.input, hs, hj, hk] at h
              exact Or.inl (prev_field_eq h)
            · simp [Form.input, hs, hj, hk] at h
              subst h; exact Or.inl rfl
      | _ =>
          simp [Form.input, hs] at h
          subst h
          exact Or.inl rfl
  | Hovered i =>
      cases key with
      | Esc =>
          simp [Form.input, hs] at h
          subst h; exact Or.inl rfl
      | Enter =>
          simp [Form.input, hs] at h
          subst h; exact Or.inl rfl
      | Char ch =>
          by_cases hj : ch = 'j'
          · simp [Form.input, hs, hj] at h
            exact Or.inl (next_field_eq h)
          · by_cases hk : ch = 'k'
            · simp [Form.input, hs, hj, hk] at h
              exact Or.inl (prev_field_eq h)
            · simp [Form.input, hs, hj, hk] at h
              subst h; exact Or.inl rfl
      | _ =>
          simp [Form.input, hs] at h
          subst h
          exact Or.inl rfl
  | Active i =>
      cases key with
      | Enter =>
          simp [Form.input, hs] at h
          exact Or.inl (next_field_eq h)
      | Esc =>
          simp [Form.input, hs] at h
          subst h; exact Or.inl rfl
      | Backspace =>
          simp only [Form.input, hs] at h
          by_cases hi : i < f.fields.length
          · simp [Form.pop_field, hi, hs] at h
            exact Or.inr ⟨i, (fun fb => { fb with val := fb.val.dropRight 1 }),
              rfl, fun a => rfl, h.symm⟩
          · simp [Form.pop_field, hi] at h
      | Char ch =>
          simp only [Form.input, hs] at h
          by_cases hi : i < f.fields.length
          · simp [Form.append_field, hi, hs] at h
            exact Or.inr ⟨i, (fun fb => { fb with val := fb.val.push ch }),
              rfl, fun a => rfl, h.symm⟩
          · simp [Form.append_field, hi] at h
      | _ =>
          simp [Form.input, hs] at h
          subst h
          exact Or.inl rfl

/-- C9: a successful `input` never changes the submitted flag, the stored
predicate, the styles, the field count or any field's name; every buffer
other than the one that was active when the key arrived is untouched. -/
theorem C9_input_frame (f : Form) (key : KeyCode) (f' : Form)
    (h : f.input key = some f') :
    f'.submitted = f.submitted ∧
    f'.validation_fn = f.validation_fn ∧
    f'.fields.length = f.fields.length ∧
    f'.fields.map FieldBuffer.name = f.fields.map FieldBuffer.name ∧
    (∀ j : Nat, f.selected ≠ .Active j → f'.fields[j]? = f.fields[j]?) ∧
    f'.default_field_style = f.default_field_style ∧
    f'.invalid_field_style = f.invalid_field_style ∧
    f'.hovered_field_style = f.hovered_field_style ∧
    f'.active_field_style = f.active_field_style := by
  rcases input_eq_cases h with heq | ⟨i, g, hsel, hg, heq⟩
  · refine ⟨by rw [heq], by rw [heq], by rw [heq], by rw [heq], ?_,
      by rw [heq], by rw [heq], by rw [heq], by rw [heq]⟩
    intro j _
    rw [heq]
  · subst heq
    refine ⟨rfl, rfl, by simp [listModify_length], listModify_map _ _ _ _ hg,
      ?_, rfl, rfl, rfl, rfl⟩
    intro j hj
    have hij : j ≠ i := by
      intro hji
      exact hj (hji ▸ hsel)
    simp [listModify_getElem?, hij]

/-- Witness for C9: pressing the down-navigation key on the unselected
scenario-A form only moves the selection. -/
theorem C9_input_frame_witness :
    formA.input (.Char 'j') = some formAj ∧
    (formAj.submitted = formA.submitted ∧
      formAj.validation_fn = formA.validation_fn ∧
      formAj.fields.length = formA.fields.length ∧
      formAj.fields.map FieldBuffer.name = formA.fields.map FieldBuffer.name ∧
      (∀ j : Nat, formA.selected ≠ .Active j →
        formAj.fields[j]? = formA.fields[j]?) ∧
      formAj.default_field_style = formA.default_field_style ∧
      formAj.invalid_field_style = formA.invalid_field_style ∧
      formAj.hovered_field_style = formA.hovered_field_style ∧
      formAj.active_field_style = formA.active_field_style) :=
  ⟨rfl, C9_input_frame formA (.Char 'j') formAj rfl⟩

end TuiForm
